import Mathlib

/-!
Verification of the dom4in.net collector (`collector/collector.py`).

The collector enumerates fixed-length labels over a charset and dictionary
words over a fixed TLD list, probes each candidate, and aggregates the
classifications.  This file gives a shallow embedding of the pure core of
that program — the label codec, the per-length batch generator, the word
batch generator, the pointer migration, the DNS/HTTP classification logic,
the aggregator, and the per-candidate probe loop — and proves the spec's
testable properties about them.

Strings are modelled as `List Char`; Python's arbitrary-precision integers
are modelled as `Nat` (all quantities involved are non-negative) except
where Python's `max(0, ...)` clamping is semantically relevant, where `Int`
is used.  Network I/O is modelled by passing the would-be responses as
explicit inputs.
-/

namespace Collector

/-- Little-endian digit extraction: the `chars` list built by the loop in
`index_to_label` (`collector.py`), before the final `reversed`.  Each step
appends `charset[idx % base]` and divides `idx` by `base`. -/
def encodeDigitsLE (charset : List Char) : Nat → Nat → List Char
  | _, 0 => []
  | idx, n + 1 =>
      charset.getD (idx % charset.length) 'a' ::
        encodeDigitsLE charset (idx / charset.length) n

/-- `index_to_label(idx, length, charset)` from `collector.py`: repeatedly
take `idx mod base`, append the corresponding symbol, integer-divide by
`base`, for `length` iterations, then reverse. -/
def index_to_label (idx length : Nat) (charset : List Char) : List Char :=
  (encodeDigitsLE charset idx length).reverse

/-- Modelled from the spec: the source defines no decode operation, but the
spec requires one definable as the inverse of `index_to_label` (base-C
positional interpretation of the label, most-significant symbol first). -/
def label_to_index (label : List Char) (charset : List Char) : Nat :=
  label.foldl (fun acc c => acc * charset.length + charset.indexOf c) 0

theorem encodeDigitsLE_length (charset : List Char) :
    ∀ n idx, (encodeDigitsLE charset idx n).length = n := by
  intro n
  induction n with
  | zero => intro idx; rfl
  | succ n ih => intro idx; simp [encodeDigitsLE, ih]

theorem index_to_label_length (idx length : Nat) (charset : List Char) :
    (index_to_label idx length charset).length = length := by
  simp [index_to_label, encodeDigitsLE_length]

theorem label_to_index_reverse (charset : List Char) (ds : List Char) :
    label_to_index ds.reverse charset =
      ds.foldr (fun c acc => acc * charset.length + charset.indexOf c) 0 := by
  simp [label_to_index, List.foldl_reverse]

theorem decode_encodeDigitsLE (charset : List Char) (hnd : charset.Nodup) :
    ∀ n idx, idx < charset.length ^ n →
      (encodeDigitsLE charset idx n).foldr
        (fun c acc => acc * charset.length + charset.indexOf c) 0 = idx := by
  intro n
  induction n with
  | zero =>
      intro idx h
      simp only [pow_zero, Nat.lt_one_iff] at h
      simp [encodeDigitsLE, h]
  | succ n ih =>
      intro idx h
      have hC : 0 < charset.length := by
        by_contra hc
        have hz : charset.length = 0 := Nat.eq_zero_of_not_pos hc
        rw [hz] at h
        simp [Nat.zero_pow (Nat.succ_pos n)] at h
      have hdiv : idx / charset.length < charset.length ^ n := by
        apply Nat.div_lt_of_lt_mul
        calc idx < charset.length ^ (n + 1) := h
          _ = charset.length * charset.length ^ n := by ring
      have hmod : idx % charset.length < charset.length := Nat.mod_lt _ hC
      have hget : charset.getD (idx % charset.length) 'a' =
          charset[idx % charset.length] := List.getD_eq_getElem _ _ hmod
      have hidxOf : charset.indexOf (charset[idx % charset.length]) =
          idx % charset.length := List.indexOf_getElem hnd _ hmod
      simp only [encodeDigitsLE, List.foldr_cons, ih _ hdiv, hget, hidxOf]
      calc idx / charset.length * charset.length + idx % charset.length
          = charset.length * (idx / charset.length) + idx % charset.length := by ring
        _ = idx := Nat.div_add_mod idx charset.length

theorem decode_encode (charset : List Char) (hnd : charset.Nodup)
    (L idx : Nat) (h : idx < charset.length ^ L) :
    label_to_index (index_to_label idx L charset) charset = idx := by
  rw [index_to_label, label_to_index_reverse]
  exact decode_encodeDigitsLE charset hnd L idx h

/-- C1: the label codec is a bijection on the length-L space — for any
duplicate-free charset, any length `L ≥ 1` and any `i < C^L`, the encoded
label has exactly `L` symbols, decoding it (base-C positional reading,
most-significant first) gives back `i`, and encoding is injective on
`[0, C^L)`. -/
theorem codec_bijection (charset : List Char) (L : Nat) (hnd : charset.Nodup)
    (hL : 1 ≤ L) (i : Nat) (hi : i < charset.length ^ L) :
    (index_to_label i L charset).length = L ∧
    label_to_index (index_to_label i L charset) charset = i ∧
    ∀ j, j < charset.length ^ L →
      index_to_label j L charset = index_to_label i L charset → j = i := by
  refine ⟨index_to_label_length i L charset, decode_encode charset hnd L i hi, ?_⟩
  intro j hj henc
  have hdj := decode_encode charset hnd L j hj
  have hdi := decode_encode charset hnd L i hi
  rw [henc, hdi] at hdj
  exact hdj.symm

theorem codec_bijection_witness :
    label_to_index (index_to_label 3 2 ['a', 'b']) ['a', 'b'] = 3 :=
  (codec_bijection ['a', 'b'] 2 (by decide) (by decide) 3 (by decide)).2.1

/-- Per-length cursor record: the `{tld_index, index, done}` entry stored in
`Pointer.length_states` in `collector.py`. -/
structure LengthState where
  tld_index : Nat
  index : Nat
  done : Bool
  deriving DecidableEq

/-- The `while` loop of `generate_batch_for_length` (`collector.py`).
`rem` is the remaining capacity `batch_size - len(batch)`; each loop
iteration either stops (batch full), or resets `index` to 0 and advances
`tld_index` (possibly marking the length done and breaking), and otherwise
emits `(label + "." + tld, tld)` and increments `index`.  The reset branch
falls through to the emit in the same iteration, exactly as in the source. -/
def genLoop (total : Nat) (tlds : List (List Char)) (length : Nat)
    (charset : List Char) : Nat → Nat → Nat → List (List Char × List Char) × LengthState
  | t, i, 0 => ([], ⟨t, i, false⟩)
  | t, i, rem + 1 =>
    if total ≤ i then
      if tlds.length ≤ t + 1 then
        ([], ⟨t + 1, 0, true⟩)
      else
        ((index_to_label 0 length charset ++ '.' :: tlds.getD (t + 1) [],
            tlds.getD (t + 1) []) ::
              (genLoop total tlds length charset (t + 1) 1 rem).1,
          (genLoop total tlds length charset (t + 1) 1 rem).2)
    else
      ((index_to_label i length charset ++ '.' :: tlds.getD t [],
          tlds.getD t []) ::
            (genLoop total tlds length charset t (i + 1) rem).1,
        (genLoop total tlds length charset t (i + 1) rem).2)

/-- `generate_batch_for_length(length_state, length, charset, tlds, batch_size)`
from `collector.py`, with the mutated dict modelled as an explicit
before/after `LengthState`.  If the state is already done, the label space
is empty, or the TLD list is empty, it only sets `done` and returns an
empty batch (leaving `tld_index`/`index` untouched); otherwise it runs the
emission loop and writes the advanced cursor back. -/
def generate_batch_for_length (state : LengthState) (length : Nat)
    (charset : List Char) (tlds : List (List Char)) (batch_size : Nat) :
    List (List Char × List Char) × LengthState :=
  if state.done = true ∨ charset.length ^ length = 0 ∨ tlds = [] then
    ([], { state with done := true })
  else
    genLoop (charset.length ^ length) tlds length charset
      state.tld_index state.index batch_size

/-- The candidate emitted at global position `p` of a length's enumeration:
positions are ordered with the TLD index as the major coordinate and the
label index as the minor one. -/
def emitAt (total : Nat) (tlds : List (List Char)) (length : Nat)
    (charset : List Char) (p : Nat) : List Char × List Char :=
  (index_to_label (p % total) length charset ++ '.' :: tlds.getD (p / total) [],
   tlds.getD (p / total) [])

theorem genLoop_spec (total : Nat) (tlds : List (List Char)) (length : Nat)
    (charset : List Char) (htot : 0 < total) :
    ∀ rem t i, i ≤ total → t < tlds.length →
      (rem ≤ total * tlds.length - (t * total + i) →
        ∃ t' i', genLoop total tlds length charset t i rem =
            ((List.range' (t * total + i) rem).map (emitAt total tlds length charset),
             ⟨t', i', false⟩) ∧
          t' * total + i' = t * total + i + rem ∧ i' ≤ total ∧ t' < tlds.length) ∧
      (total * tlds.length - (t * total + i) < rem →
        genLoop total tlds length charset t i rem =
          ((List.range' (t * total + i) (total * tlds.length - (t * total + i))).map
              (emitAt total tlds length charset),
           ⟨tlds.length, 0, true⟩)) := by
  intro rem
  induction rem with
  | zero =>
      intro t i hi ht
      refine ⟨fun _ => ⟨t, i, by simp [genLoop], by omega, hi, ht⟩, fun h => by omega⟩
  | succ rem ih =>
      intro t i hi ht
      by_cases hcase : total ≤ i
      · -- index has reached the end of the label space for the current TLD
        have hieq : i = total := le_antisymm hi hcase
        by_cases hlast : tlds.length ≤ t + 1
        · -- all TLDs exhausted for this length: mark done
          have hteq : t + 1 = tlds.length := by omega
          have hpN : total * tlds.length - (t * total + i) = 0 := by
            have h1 : (t + 1) * total = tlds.length * total := by rw [hteq]
            have h2 : (t + 1) * total = t * total + total := by ring
            have h3 : tlds.length * total = total * tlds.length := by ring
            omega
          constructor
          · intro hle
            omega
          · intro _
            rw [hpN]
            simp [genLoop, hcase, hlast, hteq]
        · -- advance to the next TLD and emit its first label in the same iteration
          have ht1 : t + 1 < tlds.length := by omega
          have hpp : t * total + i = (t + 1) * total := by
            have h2 : (t + 1) * total = t * total + total := by ring
            omega
          have hpN : (t + 1) * total < total * tlds.length := by
            have h1 := (Nat.mul_lt_mul_right htot).mpr ht1
            have h3 : tlds.length * total = total * tlds.length := by ring
            omega
          have hdiv : ((t + 1) * total) / total = t + 1 := Nat.mul_div_cancel _ htot
          have hmod : ((t + 1) * total) % total = 0 := Nat.mul_mod_left _ _
          have hhead : emitAt total tlds length charset ((t + 1) * total) =
              (index_to_label 0 length charset ++ '.' :: tlds.getD (t + 1) [],
               tlds.getD (t + 1) []) := by
            simp [emitAt, hdiv, hmod]
          have ihs := ih (t + 1) 1 (by omega) ht1
          constructor
          · intro hle
            obtain ⟨t', i', heq, hsum, hi', ht'⟩ := ihs.1 (by omega)
            refine ⟨t', i', ?_, by omega, hi', ht'⟩
            rw [hpp, List.range'_succ, List.map_cons]
            simp only [genLoop, if_pos hcase, if_neg hlast, heq, hhead]
          · intro hlt
            have heq := ihs.2 (by omega)
            have hrest : total * tlds.length - (t * total + i) =
                (total * tlds.length - ((t + 1) * total + 1)) + 1 := by omega
            rw [hrest, hpp, List.range'_succ, List.map_cons]
            simp only [genLoop, if_pos hcase, if_neg hlast, heq, hhead]
      · -- ordinary emit at (t, i)
        have hilt : i < total := lt_of_not_le hcase
        have hpN : t * total + i < total * tlds.length := by
          have hstep : (t + 1) * total ≤ tlds.length * total :=
            Nat.mul_le_mul_right total (by omega)
          have hexp : (t + 1) * total = t * total + total := by ring
          have hcomm : tlds.length * total = total * tlds.length := by ring
          omega
        have hdiv : (t * total + i) / total = t := by
          have h1 : (i + t * total) / total = i / total + t :=
            Nat.add_mul_div_right i t htot
          have h2 : i / total = 0 := Nat.div_eq_of_lt hilt
          rw [Nat.add_comm (t * total) i, h1, h2]
          exact Nat.zero_add t
        have hmod : (t * total + i) % total = i := by
          have h1 : (i + t * total) % total = i % total := Nat.add_mul_mod_self_right i t total
          rw [Nat.add_comm (t * total) i, h1, Nat.mod_eq_of_lt hilt]
        have hhead : emitAt total tlds length charset (t * total + i) =
            (index_to_label i length charset ++ '.' :: tlds.getD t [],
             tlds.getD t []) := by
          simp [emitAt, hdiv, hmod]
        have ihs := ih t (i + 1) (by omega) ht
        have harg : t * total + (i + 1) = (t * total + i) + 1 := by omega
        rw [harg] at ihs
        constructor
        · intro hle
          obtain ⟨t', i', heq, hsum, hi', ht'⟩ := ihs.1 (by omega)
          refine ⟨t', i', ?_, by omega, hi', ht'⟩
          rw [List.range'_succ, List.map_cons]
          simp only [genLoop, if_neg hcase, heq, hhead]
        · intro hlt
          have heq := ihs.2 (by omega)
          have hrest : total * tlds.length - (t * total + i) =
              (total * tlds.length - ((t * total + i) + 1)) + 1 := by omega
          rw [hrest, List.range'_succ, List.map_cons]
          simp only [genLoop, if_neg hcase, heq, hhead]

/-- A sequence of calls to `generate_batch_for_length` on the same
per-length state, as the block scheduler performs across blocks; returns
the concatenation of all batches and the final state. -/
def runCalls (length : Nat) (charset : List Char) (tlds : List (List Char)) :
    List Nat → LengthState → List (List Char × List Char) × LengthState
  | [], st => ([], st)
  | s :: rest, st =>
      ((generate_batch_for_length st length charset tlds s).1 ++
         (runCalls length charset tlds rest
           (generate_batch_for_length st length charset tlds s).2).1,
       (runCalls length charset tlds rest
         (generate_batch_for_length st length charset tlds s).2).2)

theorem generate_batch_for_length_done (st : LengthState) (hd : st.done = true)
    (length : Nat) (charset : List Char) (tlds : List (List Char)) (s : Nat) :
    generate_batch_for_length st length charset tlds s = ([], st) := by
  have hst : ({ st with done := true } : LengthState) = st := by
    cases st
    simp_all
  simp [generate_batch_for_length, hd, hst]

theorem runCalls_done (length : Nat) (charset : List Char) (tlds : List (List Char))
    (sizes : List Nat) (st : LengthState) (hd : st.done = true) :
    runCalls length charset tlds sizes st = ([], st) := by
  induction sizes with
  | nil => rfl
  | cons s rest ih =>
      simp [runCalls, generate_batch_for_length_done st hd, ih]

theorem runCalls_spec (length : Nat) (charset : List Char) (tlds : List (List Char))
    (htot : 0 < charset.length ^ length) (htl : tlds ≠ []) :
    ∀ (sizes : List Nat) (t i : Nat), i ≤ charset.length ^ length → t < tlds.length →
      (runCalls length charset tlds sizes ⟨t, i, false⟩).1 =
        (List.range' (t * charset.length ^ length + i)
            (min sizes.sum
              (charset.length ^ length * tlds.length -
                (t * charset.length ^ length + i)))).map
          (emitAt (charset.length ^ length) tlds length charset) ∧
      (charset.length ^ length * tlds.length - (t * charset.length ^ length + i) <
          sizes.sum →
        (runCalls length charset tlds sizes ⟨t, i, false⟩).2.done = true) := by
  intro sizes
  induction sizes with
  | nil =>
      intro t i hi ht
      constructor
      · simp [runCalls]
      · intro h
        simp at h
  | cons s rest ih =>
      intro t i hi ht
      have hguard : ¬((⟨t, i, false⟩ : LengthState).done = true ∨
          charset.length ^ length = 0 ∨ tlds = []) := by
        push_neg
        exact ⟨by simp, by omega, htl⟩
      have hgen : generate_batch_for_length ⟨t, i, false⟩ length charset tlds s =
          genLoop (charset.length ^ length) tlds length charset t i s := by
        simp only [generate_batch_for_length, if_neg hguard]
      have hspec := genLoop_spec (charset.length ^ length) tlds length charset htot s t i hi ht
      by_cases hle : s ≤ charset.length ^ length * tlds.length -
          (t * charset.length ^ length + i)
      · obtain ⟨t', i', heq, hsum, hi', ht'⟩ := hspec.1 hle
        have ihs := ih t' i' hi' ht'
        rw [hsum] at ihs
        have hmin1 : min rest.sum (charset.length ^ length * tlds.length -
            (t * charset.length ^ length + i + s)) + s =
            min ((s :: rest).sum) (charset.length ^ length * tlds.length -
              (t * charset.length ^ length + i)) := by
          simp only [List.sum_cons]
          omega
        constructor
        · simp only [runCalls, hgen, heq, ihs.1]
          rw [← List.map_append, List.range'_append_1, hmin1]
        · intro hgt
          simp only [runCalls, hgen, heq]
          apply ihs.2
          simp only [List.sum_cons] at hgt
          omega
      · have heq := hspec.2 (by omega)
        have hdone := runCalls_done length charset tlds rest
          ⟨tlds.length, 0, true⟩ rfl
        have hmin2 : min ((s :: rest).sum) (charset.length ^ length * tlds.length -
            (t * charset.length ^ length + i)) =
            charset.length ^ length * tlds.length -
              (t * charset.length ^ length + i) := by
          simp only [List.sum_cons]
          omega
        constructor
        · simp only [runCalls, hgen, heq, hdone]
          rw [List.append_nil, hmin2]
        · intro _
          simp [runCalls, hgen, heq, hdone]

theorem emitAt_inj (tlds : List (List Char)) (length : Nat) (charset : List Char)
    (hnd : charset.Nodup) (hndt : tlds.Nodup) (htot : 0 < charset.length ^ length)
    (p q : Nat) (hp : p < charset.length ^ length * tlds.length)
    (hq : q < charset.length ^ length * tlds.length)
    (heq : emitAt (charset.length ^ length) tlds length charset p =
      emitAt (charset.length ^ length) tlds length charset q) : p = q := by
  have hpd : p / charset.length ^ length < tlds.length :=
    Nat.div_lt_of_lt_mul hp
  have hqd : q / charset.length ^ length < tlds.length :=
    Nat.div_lt_of_lt_mul hq
  have hsnd : tlds.getD (p / charset.length ^ length) [] =
      tlds.getD (q / charset.length ^ length) [] := congrArg Prod.snd heq
  rw [List.getD_eq_getElem _ _ hpd, List.getD_eq_getElem _ _ hqd] at hsnd
  have hdiv : p / charset.length ^ length = q / charset.length ^ length :=
    (hndt.getElem_inj_iff).mp hsnd
  have hfst := congrArg Prod.fst heq
  simp only [emitAt] at hfst
  rw [hdiv] at hfst
  have hlab : index_to_label (p % charset.length ^ length) length charset =
      index_to_label (q % charset.length ^ length) length charset :=
    List.append_cancel_right hfst
  have hpm : p % charset.length ^ length < charset.length ^ length := Nat.mod_lt _ htot
  have hqm : q % charset.length ^ length < charset.length ^ length := Nat.mod_lt _ htot
  have hmod : p % charset.length ^ length = q % charset.length ^ length := by
    have h1 := decode_encode charset hnd length _ hpm
    have h2 := decode_encode charset hnd length _ hqm
    rw [hlab, h2] at h1
    exact h1.symm
  have h1 := Nat.div_add_mod p (charset.length ^ length)
  have h2 := Nat.div_add_mod q (charset.length ^ length)
  rw [hdiv] at h1
  omega

theorem count_eq_one_of_nodup_mem {α : Type} [BEq α] [LawfulBEq α] {l : List α} {a : α}
    (hn : l.Nodup) (ha : a ∈ l) : l.count a = 1 := by
  induction l with
  | nil => cases ha
  | cons b rest ih =>
      rcases List.mem_cons.mp ha with h | h
      · subst h
        rw [List.count_cons_self]
        rw [List.count_eq_zero.mpr (List.nodup_cons.mp hn).1]
      · have hne : a ≠ b := by
          rintro rfl
          exact (List.nodup_cons.mp hn).1 h
        rw [List.count_cons_of_ne hne]
        exact ih (List.nodup_cons.mp hn).2 h

/-- C2: starting from the initial per-length state, any sequence of
positive batch sizes whose total exceeds the `C^L × |TLDs|` space makes
the concatenated batches enumerate every `(label.tld, tld)` candidate
exactly once (the output has exactly `C^L * |TLDs|` entries and each
candidate occurs once), the final state is `done`, and any call on a done
state returns an empty batch without moving `tld_index` or `index`. -/
theorem length_generator_partition (charset : List Char) (L : Nat)
    (tlds : List (List Char)) (hcs : charset ≠ []) (hnd : charset.Nodup)
    (htl : tlds ≠ []) (hndt : tlds.Nodup) (sizes : List Nat)
    (hpos : ∀ s ∈ sizes, 0 < s)
    (hsum : charset.length ^ L * tlds.length < sizes.sum) :
    (runCalls L charset tlds sizes ⟨0, 0, false⟩).1.length =
        charset.length ^ L * tlds.length ∧
    (∀ i, i < charset.length ^ L → ∀ tld ∈ tlds,
      (runCalls L charset tlds sizes ⟨0, 0, false⟩).1.count
        (index_to_label i L charset ++ '.' :: tld, tld) = 1) ∧
    (runCalls L charset tlds sizes ⟨0, 0, false⟩).2.done = true ∧
    (∀ st : LengthState, st.done = true → ∀ s,
      generate_batch_for_length st L charset tlds s = ([], st)) := by
  have htot : 0 < charset.length ^ L :=
    Nat.pos_pow_of_pos L (List.length_pos.mpr hcs)
  have htlen : 0 < tlds.length := List.length_pos.mpr htl
  have hspec := runCalls_spec L charset tlds htot htl sizes 0 0 (by omega) htlen
  simp only [Nat.zero_mul, Nat.zero_add, Nat.sub_zero] at hspec
  have hmin : min sizes.sum (charset.length ^ L * tlds.length) =
      charset.length ^ L * tlds.length := by omega
  rw [hmin] at hspec
  have hout := hspec.1
  refine ⟨?_, ?_, hspec.2 hsum, fun st hd s => generate_batch_for_length_done st hd L charset tlds s⟩
  · rw [hout]
    simp
  · intro i hi tld htld
    rw [hout]
    have hnodup : ((List.range' 0 (charset.length ^ L * tlds.length)).map
        (emitAt (charset.length ^ L) tlds L charset)).Nodup := by
      apply List.Nodup.map_on
      · intro p hp q hq hpq
        have hp' : p < charset.length ^ L * tlds.length := by
          have := List.mem_range'_1.mp hp
          omega
        have hq' : q < charset.length ^ L * tlds.length := by
          have := List.mem_range'_1.mp hq
          omega
        exact emitAt_inj tlds L charset hnd hndt htot p q hp' hq' hpq
      · exact List.nodup_range' _ _
    obtain ⟨t0, ht0, hget⟩ := List.mem_iff_getElem.mp htld
    have hplt : t0 * charset.length ^ L + i < charset.length ^ L * tlds.length := by
      have hstep : (t0 + 1) * charset.length ^ L ≤ tlds.length * charset.length ^ L :=
        Nat.mul_le_mul_right _ (by omega)
      have hexp : (t0 + 1) * charset.length ^ L = t0 * charset.length ^ L + charset.length ^ L := by
        ring
      have hcomm : tlds.length * charset.length ^ L = charset.length ^ L * tlds.length := by
        ring
      omega
    have hdiv : (t0 * charset.length ^ L + i) / charset.length ^ L = t0 := by
      have h1 : (i + t0 * charset.length ^ L) / charset.length ^ L =
          i / charset.length ^ L + t0 := Nat.add_mul_div_right i t0 htot
      have h2 : i / charset.length ^ L = 0 := Nat.div_eq_of_lt hi
      rw [Nat.add_comm (t0 * charset.length ^ L) i, h1, h2]
      exact Nat.zero_add t0
    have hmod : (t0 * charset.length ^ L + i) % charset.length ^ L = i := by
      have h1 : (i + t0 * charset.length ^ L) % charset.length ^ L =
          i % charset.length ^ L := Nat.add_mul_mod_self_right i t0 _
      rw [Nat.add_comm (t0 * charset.length ^ L) i, h1, Nat.mod_eq_of_lt hi]
    have hget' : tlds.getD t0 [] = tld := by
      rw [List.getD_eq_getElem _ _ ht0, hget]
    have hemit : emitAt (charset.length ^ L) tlds L charset
        (t0 * charset.length ^ L + i) =
        (index_to_label i L charset ++ '.' :: tld, tld) := by
      simp only [emitAt]
      rw [hdiv, hmod, hget']
    have hmem : (index_to_label i L charset ++ '.' :: tld, tld) ∈
        (List.range' 0 (charset.length ^ L * tlds.length)).map
          (emitAt (charset.length ^ L) tlds L charset) := by
      rw [← hemit]
      exact List.mem_map_of_mem _ (List.mem_range'_1.mpr ⟨by omega, by omega⟩)
    exact count_eq_one_of_nodup_mem hnodup hmem

theorem length_generator_partition_witness :
    (runCalls 1 ['a'] [['x']] [2] ⟨0, 0, false⟩).1.length = 1 * 1 ∧
    (runCalls 1 ['a'] [['x']] [2] ⟨0, 0, false⟩).2.done = true := by
  have h := length_generator_partition ['a'] 1 [['x']] (by decide) (by decide)
    (by decide) (by decide) [2] (by decide) (by decide)
  exact ⟨h.1, h.2.2.1⟩

/-- C3 counterexample: with charset `"ab"`, length 1, TLDs `["x","y"]` and
batch size 10, the single generated batch is not the claimed
`[(a.x),(a.y),(b.x),(b.y)]` — labels are iterated inside each TLD, not the
other way around. -/
theorem first_block_scenario_counterexample :
    (generate_batch_for_length ⟨0, 0, false⟩ 1 ['a', 'b'] [['x'], ['y']] 10).1 ≠
      [(['a', '.', 'x'], ['x']), (['a', '.', 'y'], ['y']),
       (['b', '.', 'x'], ['x']), (['b', '.', 'y'], ['y'])] := by
  decide

/-- C3 amended: with charset `"ab"`, length 1, TLDs `["x","y"]` and batch
size 10, a single call from the initial state returns exactly
`[(a.x),(b.x),(a.y),(b.y)]` — all labels under the first TLD, then all
labels under the second — and leaves the cursor done. -/
theorem first_block_scenario :
    generate_batch_for_length ⟨0, 0, false⟩ 1 ['a', 'b'] [['x'], ['y']] 10 =
      ([(['a', '.', 'x'], ['x']), (['b', '.', 'x'], ['x']),
        (['a', '.', 'y'], ['y']), (['b', '.', 'y'], ['y'])],
       ⟨2, 0, true⟩) := by
  decide

/-- The `WordPointer` dataclass from `collector.py`: a format version and
the persisted index into the word list. -/
structure WordPointer where
  version : Nat
  index : Nat
  deriving DecidableEq

/-- The inner `for _ in range(len(tlds))` loop of `generate_word_batch`
(`collector.py`): for the current word it emits `(word + "." + tld, tld)`
pairs, advancing the TLD round-robin index modulo `len(tlds)`, breaking
early when the batch is full.  `k` is the number of `for` iterations left
and `rem` the remaining batch capacity; returns the emitted pairs and the
final `tld_index`. -/
def wordInner (word : List Char) (tlds : List (List Char)) :
    Nat → Nat → Nat → List (List Char × List Char) × Nat
  | 0, tld_index, _ => ([], tld_index)
  | _ + 1, tld_index, 0 => ([], tld_index)
  | k + 1, tld_index, rem + 1 =>
      ((word ++ '.' :: tlds.getD tld_index [], tlds.getD tld_index []) ::
          (wordInner word tlds k ((tld_index + 1) % tlds.length) rem).1,
        (wordInner word tlds k ((tld_index + 1) % tlds.length) rem).2)

theorem wordInner_length (word : List Char) (tlds : List (List Char)) :
    ∀ k tld_index rem, (wordInner word tlds k tld_index rem).1.length = min k rem := by
  intro k
  induction k with
  | zero => intro ti rem; simp [wordInner]
  | succ k ih =>
      intro ti rem
      cases rem with
      | zero => simp [wordInner]
      | succ rem => simp [wordInner, ih, Nat.succ_min_succ]

/-- The outer `while` loop of `generate_word_batch` (`collector.py`):
wraps the word index to 0 when it reaches the end of the list, reads the
current word, advances the index, and runs the TLD loop for that word.
`rem` is the remaining batch capacity; returns the emitted pairs and the
final word index.  (With an empty TLD list the source's loop makes no
progress; that case is unreachable here since callers pass the pointer's
non-empty TLD list, and it is mapped to an empty batch.) -/
def wordOuter (words tlds : List (List Char)) :
    Nat → Nat → Nat → List (List Char × List Char) × Nat
  | idx, _, 0 => ([], idx)
  | idx, tld_index, rem + 1 =>
      if h : tlds.length = 0 then
        ([], idx)
      else
        ((wordInner (words.getD (if words.length ≤ idx then 0 else idx) []) tlds
            tlds.length tld_index (rem + 1)).1 ++
          (wordOuter words tlds ((if words.length ≤ idx then 0 else idx) + 1)
            (wordInner (words.getD (if words.length ≤ idx then 0 else idx) []) tlds
              tlds.length tld_index (rem + 1)).2
            (rem + 1 -
              (wordInner (words.getD (if words.length ≤ idx then 0 else idx) []) tlds
                tlds.length tld_index (rem + 1)).1.length)).1,
         (wordOuter words tlds ((if words.length ≤ idx then 0 else idx) + 1)
           (wordInner (words.getD (if words.length ≤ idx then 0 else idx) []) tlds
             tlds.length tld_index (rem + 1)).2
           (rem + 1 -
             (wordInner (words.getD (if words.length ≤ idx then 0 else idx) []) tlds
               tlds.length tld_index (rem + 1)).1.length)).2)
  termination_by idx ti rem => rem
  decreasing_by
    simp only [wordInner_length]
    omega

/-- `generate_word_batch(word_pointer, tlds, count)` from `collector.py`,
with the word list (read from disk by `load_words` in the source) passed
explicitly and the mutated pointer modelled as before/after values.  If
the word list is empty it returns an empty batch and leaves the pointer
untouched; otherwise it runs the loop (the local TLD round-robin index
starts at 0 on every call) and writes the final index back. -/
def generate_word_batch (word_pointer : WordPointer) (words : List (List Char))
    (tlds : List (List Char)) (count : Nat) :
    List (List Char × List Char) × WordPointer :=
  if words = [] then ([], word_pointer)
  else
    ((wordOuter words tlds word_pointer.index 0 count).1,
     { word_pointer with index := (wordOuter words tlds word_pointer.index 0 count).2 })

theorem wordOuter_batch_length (words tlds : List (List Char)) (htl : tlds ≠ []) :
    ∀ rem idx tld_index, (wordOuter words tlds idx tld_index rem).1.length = rem := by
  intro rem
  induction rem using Nat.strong_induction_on with
  | _ rem ih =>
      intro idx ti
      match rem with
      | 0 => simp [wordOuter]
      | rem + 1 =>
          have hlen : tlds.length ≠ 0 := by
            simpa using List.length_pos.mpr htl |>.ne'
          rw [wordOuter]
          simp only [dif_neg hlen]
          rw [List.length_append, wordInner_length,
            ih (rem + 1 - min tlds.length (rem + 1)) (by omega) _ _]
          omega

theorem wordOuter_single_tld (words : List (List Char)) (t : List Char) :
    ∀ rem idx, idx + rem ≤ words.length →
      wordOuter words [t] idx 0 rem =
        (((words.drop idx).take rem).map (fun w => (w ++ '.' :: t, t)), idx + rem) := by
  intro rem
  induction rem with
  | zero => intro idx _; simp [wordOuter]
  | succ rem ih =>
      intro idx hle
      have hidx : idx < words.length := by omega
      have hwrap : ¬(words.length ≤ idx) := by omega
      have hinner : ∀ w : List Char, wordInner w [t] 1 0 (rem + 1) =
          ([(w ++ '.' :: t, t)], 0) := by
        intro w
        simp [wordInner]
      have h1 : ¬(([t] : List (List Char)).length = 0) := by simp
      rw [wordOuter, dif_neg h1]
      simp only [if_neg hwrap, List.length_singleton, hinner,
        Nat.add_sub_cancel, List.singleton_append]
      rw [ih (idx + 1) (by omega)]
      have hdrop : words.drop idx = words[idx] :: words.drop (idx + 1) :=
        List.drop_eq_getElem_cons hidx
      have hget : words.getD idx [] = words[idx] := List.getD_eq_getElem _ _ hidx
      have harith : idx + 1 + rem = idx + (rem + 1) := by omega
      rw [hdrop, List.take_succ_cons, List.map_cons, hget, harith]

/-- C4 counterexample: with word list `["a"]`, one TLD and count 1 (one
full cycle), the persisted word index after the call is 1 = len(words),
not 0 as the claim states. -/
theorem word_cursor_counterexample :
    ¬((generate_word_batch ⟨1, 0⟩ [['a']] [['x']] 1).2.index = 0) := by
  have h := wordOuter_single_tld [['a']] ['x'] 1 0 (by decide)
  simp [generate_word_batch, h]

/-- C4 amended: the word generator never marks done and is cyclic — for
any non-empty word list and non-empty TLD list it fills any requested
count, and with exactly one TLD, starting from index 0 with
count = len(words), it emits each word exactly once in list order and
persists the index len(words) (not 0); the wrap to 0 happens at the start
of the next call, whose first (and here only) candidate is words[0]
again, leaving the index at 1. -/
theorem word_generator_cyclic (words tlds : List (List Char)) (t : List Char)
    (v : Nat) (wp : WordPointer) (hw : words ≠ []) (htl : tlds ≠ [])
    (count : Nat) (hc : 0 < count) :
    (generate_word_batch wp words tlds count).1.length = count ∧
    (generate_word_batch ⟨v, 0⟩ words [t] words.length).1 =
        words.map (fun w => (w ++ '.' :: t, t)) ∧
    (generate_word_batch ⟨v, 0⟩ words [t] words.length).2.index = words.length ∧
    (generate_word_batch ⟨v, words.length⟩ words [t] 1).1 =
        [(words.getD 0 [] ++ '.' :: t, t)] ∧
    (generate_word_batch ⟨v, words.length⟩ words [t] 1).2.index = 1 := by
  have hw0 : 0 < words.length := List.length_pos.mpr hw
  have hcyc := wordOuter_single_tld words t words.length 0 (by omega)
  simp only [Nat.zero_add, List.drop_zero, List.take_length] at hcyc
  have hwrap : wordOuter words [t] words.length 0 1 =
      ([(words.getD 0 [] ++ '.' :: t, t)], 1) := by
    rw [wordOuter]
    have h1 : ¬(([t] : List (List Char)).length = 0) := by simp
    rw [dif_neg h1]
    have h2 : words.length ≤ words.length := le_refl _
    simp only [if_pos h2, List.length_singleton, Nat.zero_add]
    have hinner : wordInner (words.getD 0 []) [t] 1 0 1 =
        ([(words.getD 0 [] ++ '.' :: t, t)], 0) := by
      simp [wordInner]
    rw [hinner]
    simp [wordOuter]
  refine ⟨?_, ?_, ?_, ?_, ?_⟩
  · simp only [generate_word_batch, if_neg hw]
    exact wordOuter_batch_length words tlds htl count wp.index 0
  · simp only [generate_word_batch, if_neg hw, hcyc]
  · simp only [generate_word_batch, if_neg hw, hcyc]
  · simp only [generate_word_batch, if_neg hw, hwrap]
  · simp only [generate_word_batch, if_neg hw, hwrap]

theorem word_generator_cyclic_witness :
    (generate_word_batch ⟨1, 0⟩ [['a'], ['b']] [['x']] 1).1.length = 1 ∧
    (generate_word_batch ⟨1, [['a'], ['b']].length⟩ [['a'], ['b']] [['x']] 1).2.index = 1 := by
  have h := word_generator_cyclic [['a'], ['b']] [['x']] ['x'] 1 ⟨1, 0⟩
    (by decide) (by decide) 1 (by decide)
  exact ⟨h.1, h.2.2.2.2⟩

/-- The fixed TLD sample returned by the `Pointer.tlds` property in
`collector.py`. -/
def pointerTlds : List (List Char) :=
  ["com".toList, "net".toList, "org".toList, "io".toList, "co".toList]

/-- The `Pointer` dataclass from `collector.py`: format version, charset,
max length, the legacy single-cursor fields (`tld_index`, `length`,
`index`), batch size, and the per-length state map (keyed by length).
The clampable legacy fields are `Int` to preserve the source's
`max(0, ...)` clamping. -/
structure Pointer where
  version : Int
  charset : List Char
  max_length : Nat
  tld_index : Int
  length : Nat
  index : Int
  batch_size : Nat
  length_states : List (Nat × LengthState)

/-- `Pointer.migrate_to_v2` from `collector.py`: builds the per-length
state map from the legacy single-cursor fields — lengths below the legacy
current length are fully done (their `index` set to the whole `C^L`
space), the current length inherits the clamped legacy
`tld_index`/`index`, higher lengths start at zero — and stamps version 2. -/
def migrate_to_v2 (p : Pointer) : Pointer :=
  { p with
    length_states :=
      (List.range' 1 p.max_length).map (fun L =>
        if L < p.length then
          (L, (⟨0, p.charset.length ^ L, true⟩ : LengthState))
        else if L = p.length then
          (L, ⟨(max 0 (min p.tld_index ((pointerTlds.length : Int) - 1))).toNat,
               (max 0 p.index).toNat, false⟩)
        else
          (L, ⟨0, 0, false⟩)),
    version := 2 }

/-- C5: migrating a legacy pointer with `length=3, tld_index=1, index=5`
and `max_length=6` (any charset, any prior version/batch size) yields
per-length states with lengths 1–2 done, length 3 at
`tld_index=1, index=5, done=false`, lengths 4–6 at
`tld_index=0, index=0, done=false`, and stamps version 2. -/
theorem pointer_migration (cs : List Char) (v : Int) (bs : Nat)
    (sts : List (Nat × LengthState)) :
    (migrate_to_v2 ⟨v, cs, 6, 1, 3, 5, bs, sts⟩).version = 2 ∧
    ((migrate_to_v2 ⟨v, cs, 6, 1, 3, 5, bs, sts⟩).length_states.lookup 1).map
        LengthState.done = some true ∧
    ((migrate_to_v2 ⟨v, cs, 6, 1, 3, 5, bs, sts⟩).length_states.lookup 2).map
        LengthState.done = some true ∧
    (migrate_to_v2 ⟨v, cs, 6, 1, 3, 5, bs, sts⟩).length_states.lookup 3 =
        some ⟨1, 5, false⟩ ∧
    (migrate_to_v2 ⟨v, cs, 6, 1, 3, 5, bs, sts⟩).length_states.lookup 4 =
        some ⟨0, 0, false⟩ ∧
    (migrate_to_v2 ⟨v, cs, 6, 1, 3, 5, bs, sts⟩).length_states.lookup 5 =
        some ⟨0, 0, false⟩ ∧
    (migrate_to_v2 ⟨v, cs, 6, 1, 3, 5, bs, sts⟩).length_states.lookup 6 =
        some ⟨0, 0, false⟩ := by
  have hr : List.range' 1 6 = [1, 2, 3, 4, 5, 6] := rfl
  refine ⟨rfl, ?_, ?_, ?_, ?_, ?_, ?_⟩ <;>
    simp [migrate_to_v2, hr, List.lookup, pointerTlds]

/-- Parsed body of a DNS-over-HTTPS response in `check_domain_dns`
(`collector.py`): either the bytes fail to parse as JSON, or they parse
and carry an optional integer `Status` field plus the `Answer` record
list (absent modelled as empty — both are falsy in the source's
`data.get("Answer")` check; records themselves are opaque). -/
inductive DohBody
  | malformed
  | json (status_field : Option Int) (answer : List Unit)
  deriving DecidableEq

/-- The outcome of the `urlopen` fetch inside `check_domain_dns`: a
transport error (`URLError`/timeout/`SSLError`), or an HTTP response with
a status code and a body. -/
inductive DohResponse
  | transport_error
  | http (status : Nat) (body : DohBody)
  deriving DecidableEq

/-- The dict returned by `check_domain_dns`: either
`{"resolver_error": True}` or a full registration classification
(which always carries `resolver_error: False`). -/
inductive DnsResult
  | resolver_error
  | classified (registered has_dns : Bool)
  deriving DecidableEq

/-- `check_domain_dns(domain, resolver)` from `collector.py` with the
network interaction abstracted into the would-be response: a non-200 HTTP
status, a transport error, malformed JSON, or a missing `Status` field
give a resolver error; `Status == 0` with a non-empty `Answer` list gives
registered with DNS; any other well-formed response gives
unregistered/no DNS with a healthy resolver. -/
def check_domain_dns (resp : DohResponse) : DnsResult :=
  match resp with
  | .transport_error => .resolver_error
  | .http status body =>
      if status ≠ 200 then .resolver_error
      else
        match body with
        | .malformed => .resolver_error
        | .json none _ => .resolver_error
        | .json (some s) answer =>
            if s = 0 ∧ answer ≠ [] then .classified true true
            else .classified false false

/-- C6: DNS-phase classification — a well-formed `Status 0` response with
at least one answer record classifies as registered with DNS; any other
well-formed response (non-zero status, or no answers) classifies as
unregistered without DNS; a non-200 HTTP status, a transport error,
malformed JSON, or a missing `Status` field yield a resolver error, not a
domain-state decision. -/
theorem dns_classification (status : Nat) (s : Int) (answer : List Unit)
    (body : DohBody) :
    (answer ≠ [] →
      check_domain_dns (.http 200 (.json (some 0) answer)) = .classified true true) ∧
    (s ≠ 0 ∨ answer = [] →
      check_domain_dns (.http 200 (.json (some s) answer)) = .classified false false) ∧
    (status ≠ 200 → check_domain_dns (.http status body) = .resolver_error) ∧
    check_domain_dns .transport_error = .resolver_error ∧
    check_domain_dns (.http 200 .malformed) = .resolver_error ∧
    check_domain_dns (.http 200 (.json none answer)) = .resolver_error := by
  refine ⟨?_, ?_, ?_, rfl, rfl, rfl⟩
  · intro h
    simp [check_domain_dns, h]
  · intro h
    rcases h with h | h <;> simp [check_domain_dns, h]
  · intro h
    simp [check_domain_dns, h]

theorem dns_classification_witness :
    check_domain_dns (.http 200 (.json (some 0) [()])) = .classified true true ∧
    check_domain_dns (.http 500 .malformed) = .resolver_error :=
  ⟨(dns_classification 500 3 [()] .malformed).1 (by decide),
   (dns_classification 500 3 [()] .malformed).2.2.1 (by decide)⟩

/-- The `usage_state` values produced by `check_domain_http`. -/
inductive UsageState
  | no_website
  | parked_or_placeholder
  | active_site
  deriving DecidableEq

/-- The `product_state` values produced by `check_domain_http`. -/
inductive ProductState
  | active_product
  | unknown
  deriving DecidableEq

/-- The HTTP/product classification dict returned by `check_domain_http`. -/
structure HttpInfo where
  usage_state : UsageState
  product_state : ProductState
  deriving DecidableEq

/-- The outcome of the `urlopen` fetch inside `check_domain_http`: any
network/TLS/HTTP exception, or a response with status code, `Content-Type`
header and the (up to 4KB, decoded) body text. -/
inductive HttpFetch
  | error
  | ok (status : Nat) (content_type : List Char) (body : List Char)
  deriving DecidableEq

/-- The parking keyword set from `check_domain_http` (`collector.py`). -/
def parking_keywords : List (List Char) :=
  ["domain parking".toList, "parked domain".toList,
   "this domain is for sale".toList]

/-- The commercial keyword set from `check_domain_http` (`collector.py`). -/
def product_keywords : List (List Char) :=
  ["pricing".toList, "plans".toList, "subscribe".toList, "sign up".toList,
   "buy now".toList, "api docs".toList, "api documentation".toList]

/-- Python's `str.strip()`: whitespace removed from both ends. -/
def pyStrip (s : List Char) : List Char :=
  ((s.dropWhile Char.isWhitespace).reverse.dropWhile Char.isWhitespace).reverse

/-- Python's `needle in haystack` substring test on our `List Char`
strings. -/
def containsSub (haystack needle : List Char) : Bool :=
  decide (needle <:+: haystack)

/-- `check_domain_http(domain)` from `collector.py` with the fetch
abstracted into the would-be response.  Any fetch error is no website;
otherwise usage is classified by the source's if/elif chain (5xx, parking
keywords in the lowercased body, redirect statuses, HTML content type with
a non-blank body, else nothing), and the product state independently by
the commercial keyword set. -/
def check_domain_http (fetch : HttpFetch) : HttpInfo :=
  match fetch with
  | .error => ⟨.no_website, .unknown⟩
  | .ok status content_type body =>
      let text_lower := body.map Char.toLower
      let usage :=
        if 500 ≤ status then
          UsageState.no_website
        else if parking_keywords.any (fun k => containsSub text_lower k) then
          UsageState.parked_or_placeholder
        else if status = 301 ∨ status = 302 ∨ status = 303 ∨ status = 307 ∨
            status = 308 then
          UsageState.parked_or_placeholder
        else if containsSub content_type "text/html".toList = true ∧
            0 < (pyStrip body).length then
          UsageState.active_site
        else
          UsageState.no_website
      let product :=
        if product_keywords.any (fun k => containsSub text_lower k) then
          ProductState.active_product
        else
          ProductState.unknown
      ⟨usage, product⟩

/-- C7: HTTP-phase classification — every fetched redirect status
(301/302/303/307/308) classifies as parked regardless of body and
content type, and in general usage follows the precedence 5xx → parking
keyword → redirect → HTML with non-blank body → nothing. -/
theorem http_classification (status : Nat) (content_type body : List Char) :
    (status = 301 ∨ status = 302 ∨ status = 303 ∨ status = 307 ∨ status = 308 →
      (check_domain_http (.ok status content_type body)).usage_state =
        .parked_or_placeholder) ∧
    (500 ≤ status →
      (check_domain_http (.ok status content_type body)).usage_state = .no_website) ∧
    (status < 500 →
      parking_keywords.any (fun k => containsSub (body.map Char.toLower) k) = true →
      (check_domain_http (.ok status content_type body)).usage_state =
        .parked_or_placeholder) ∧
    (status < 500 →
      parking_keywords.any (fun k => containsSub (body.map Char.toLower) k) = false →
      ¬(status = 301 ∨ status = 302 ∨ status = 303 ∨ status = 307 ∨ status = 308) →
      containsSub content_type "text/html".toList = true →
      0 < (pyStrip body).length →
      (check_domain_http (.ok status content_type body)).usage_state = .active_site) ∧
    (status < 500 →
      parking_keywords.any (fun k => containsSub (body.map Char.toLower) k) = false →
      ¬(status = 301 ∨ status = 302 ∨ status = 303 ∨ status = 307 ∨ status = 308) →
      ¬(containsSub content_type "text/html".toList = true ∧ 0 < (pyStrip body).length) →
      (check_domain_http (.ok status content_type body)).usage_state = .no_website) := by
  refine ⟨?_, ?_, ?_, ?_, ?_⟩
  · intro hred
    have h5 : ¬(500 ≤ status) := by omega
    by_cases hk : parking_keywords.any (fun k => containsSub (body.map Char.toLower) k) = true
    · simp [check_domain_http, h5, hk]
    · simp [check_domain_http, h5, hk, hred]
  · intro h5
    simp [check_domain_http, h5]
  · intro h5 hk
    have h5' : ¬(500 ≤ status) := by omega
    simp [check_domain_http, h5', hk]
  · intro h5 hk hred hct hbody
    have h5' : ¬(500 ≤ status) := by omega
    simp at hct
    simp [check_domain_http, h5', hk, hred, hct, hbody]
  · intro h5 hk hred hct
    have h5' : ¬(500 ≤ status) := by omega
    simp [check_domain_http, h5', hk, hred]
    intro hc2
    have hc3 : containsSub content_type "text/html".toList = true := by
      simpa using hc2
    have hb : ¬(0 < (pyStrip body).length) := fun hb => hct ⟨hc3, hb⟩
    have hz : (pyStrip body).length = 0 := by omega
    exact List.length_eq_zero.mp hz

theorem http_classification_witness :
    (check_domain_http (.ok 301 "application/json".toList "hello".toList)).usage_state =
      .parked_or_placeholder :=
  (http_classification 301 "application/json".toList "hello".toList).1 (by decide)

/-- The module-level `CHARSET` constant from `collector.py`. -/
def CHARSET : List Char := "abcdefghijklmnopqrstuvwxyz0123456789".toList

/-- The module-level `MAX_LENGTH` constant from `collector.py`. -/
def MAX_LENGTH : Nat := 10

/-- A `length_stats` bucket (`update_aggregates`, `collector.py`). -/
structure LenBucket where
  length : Nat
  total_possible : Nat
  tracked_count : Nat
  unregistered_found : Nat
  unused_found : Nat
  deriving DecidableEq

/-- A `length_stats_by_tld` bucket (`update_aggregates`, `collector.py`). -/
structure TldLenBucket where
  tld : List Char
  length : Nat
  total_possible : Nat
  tracked_count : Nat
  unregistered_found : Nat
  unused_found : Nat
  deriving DecidableEq

/-- A `tld_stats` bucket (`update_aggregates`, `collector.py`). -/
structure TldBucket where
  tld : List Char
  domains_checked_total : Nat
  short_domains_checked_total : Nat
  short_unregistered_count : Nat
  short_no_website_count : Nat
  short_active_site_count : Nat
  deriving DecidableEq

/-- A `word_pos_stats` bucket (`update_aggregates`, `collector.py`). -/
structure PosBucket where
  pos : List Char
  length : Nat
  tracked_count : Nat
  unregistered_found : Nat
  unused_found : Nat
  deriving DecidableEq

/-- The aggregate dict built by `init_aggregates` (`collector.py`): the
two global counters and the four lazily-populated bucket maps (dicts
modelled as partial maps). -/
@[ext]
structure Aggregates where
  domains_tracked_lifetime : Nat
  domains_tracked_24h : Nat
  length_stats : Nat → Option LenBucket
  length_stats_by_tld : List Char × Nat → Option TldLenBucket
  tld_stats : List Char → Option TldBucket
  word_pos_stats : List Char × Nat → Option PosBucket

/-- `init_aggregates()` from `collector.py`: zero counters, empty maps. -/
def init_aggregates : Aggregates :=
  ⟨0, 0, fun _ => none, fun _ => none, fun _ => none, fun _ => none⟩

/-- Python's `dict.setdefault(k, dflt)` followed by in-place mutation of
the returned bucket: the map now binds `k` to `f` applied to the old
bucket (or to the freshly created default). -/
def touch {K V : Type} [DecidableEq K] (m : K → Option V) (k : K) (dflt : V)
    (f : V → V) : K → Option V :=
  fun q => if q = k then some (f ((m k).getD dflt)) else m q

/-- The per-bucket mutation applied to a `length_stats` bucket by
`update_aggregates`: `tracked_count += 1`, then `unregistered_found += 1`
when not registered, else `unused_found += 1` when the usage state is
no-website or parked. -/
def bumpLen (b : LenBucket) (registered : Bool) (usage_state : UsageState) :
    LenBucket :=
  let b1 := { b with tracked_count := b.tracked_count + 1 }
  if registered = false then
    { b1 with unregistered_found := b1.unregistered_found + 1 }
  else if usage_state = .no_website ∨ usage_state = .parked_or_placeholder then
    { b1 with unused_found := b1.unused_found + 1 }
  else b1

/-- Same mutation as `bumpLen`, mirrored into a `length_stats_by_tld`
bucket. -/
def bumpTldLen (b : TldLenBucket) (registered : Bool)
    (usage_state : UsageState) : TldLenBucket :=
  let b1 := { b with tracked_count := b.tracked_count + 1 }
  if registered = false then
    { b1 with unregistered_found := b1.unregistered_found + 1 }
  else if usage_state = .no_website ∨ usage_state = .parked_or_placeholder then
    { b1 with unused_found := b1.unused_found + 1 }
  else b1

/-- The mutation applied to a `tld_stats` bucket by `update_aggregates`:
the total always increments, and the short-specific counters increment
only while the label length is within `MAX_LENGTH`. -/
def bumpTld (b : TldBucket) (length : Nat) (registered : Bool)
    (usage_state : UsageState) : TldBucket :=
  let b1 := { b with domains_checked_total := b.domains_checked_total + 1 }
  if length ≤ MAX_LENGTH then
    let b2 := { b1 with
      short_domains_checked_total := b1.short_domains_checked_total + 1 }
    if registered = false then
      { b2 with short_unregistered_count := b2.short_unregistered_count + 1 }
    else if usage_state = .no_website ∨ usage_state = .parked_or_placeholder then
      { b2 with short_no_website_count := b2.short_no_website_count + 1 }
    else if usage_state = .active_site then
      { b2 with short_active_site_count := b2.short_active_site_count + 1 }
    else b2
  else b1

/-- The mutation applied to a `word_pos_stats` bucket by
`update_aggregates` (identical in shape to the length bucket's). -/
def bumpPos (b : PosBucket) (registered : Bool) (usage_state : UsageState) :
    PosBucket :=
  let b1 := { b with tracked_count := b.tracked_count + 1 }
  if registered = false then
    { b1 with unregistered_found := b1.unregistered_found + 1 }
  else if usage_state = .no_website ∨ usage_state = .parked_or_placeholder then
    { b1 with unused_found := b1.unused_found + 1 }
  else b1

/-- `update_aggregates(aggr, domain, tld, length, dns_info, http_info,
track_length_stats, word_pos_label)` from `collector.py`, with the dict
reads reduced to the two values the source actually consumes
(`dns_info.get("registered")` and `http_info.get("usage_state")`): always
bump both global counters; when tracking length stats, bump the
length-keyed and (tld, length)-keyed buckets (lazily created with their
static fields); always bump the tld-keyed bucket; when the
part-of-speech label is non-empty, bump the (pos, length)-keyed bucket. -/
def update_aggregates (aggr : Aggregates) (domain tld : List Char)
    (length : Nat) (registered : Bool) (usage_state : UsageState)
    (track_length_stats : Bool) (word_pos_label : List Char) : Aggregates where
  domains_tracked_lifetime := aggr.domains_tracked_lifetime + 1
  domains_tracked_24h := aggr.domains_tracked_24h + 1
  length_stats :=
    if track_length_stats then
      touch aggr.length_stats length ⟨length, CHARSET.length ^ length, 0, 0, 0⟩
        (fun b => bumpLen b registered usage_state)
    else aggr.length_stats
  length_stats_by_tld :=
    if track_length_stats then
      touch aggr.length_stats_by_tld (tld, length)
        ⟨tld, length, CHARSET.length ^ length, 0, 0, 0⟩
        (fun b => bumpTldLen b registered usage_state)
    else aggr.length_stats_by_tld
  tld_stats :=
    touch aggr.tld_stats tld ⟨tld, 0, 0, 0, 0, 0⟩
      (fun b => bumpTld b length registered usage_state)
  word_pos_stats :=
    if word_pos_label ≠ [] then
      touch aggr.word_pos_stats (word_pos_label, length)
        ⟨word_pos_label, length, 0, 0, 0⟩
        (fun b => bumpPos b registered usage_state)
    else aggr.word_pos_stats

theorem touch_comm {K V : Type} [DecidableEq K] (m : K → Option V) (k₁ k₂ : K)
    (d : K → V) (f₁ f₂ : V → V) (hc : ∀ v, f₁ (f₂ v) = f₂ (f₁ v)) :
    touch (touch m k₁ (d k₁) f₁) k₂ (d k₂) f₂ =
      touch (touch m k₂ (d k₂) f₂) k₁ (d k₁) f₁ := by
  funext q
  by_cases h1 : q = k₁ <;> by_cases h2 : q = k₂ <;>
    by_cases h12 : k₁ = k₂ <;> simp_all [touch]

theorem bumpLen_comm (b : LenBucket) (r₁ r₂ : Bool) (u₁ u₂ : UsageState) :
    bumpLen (bumpLen b r₁ u₁) r₂ u₂ = bumpLen (bumpLen b r₂ u₂) r₁ u₁ := by
  cases r₁ <;> cases r₂ <;> cases u₁ <;> cases u₂ <;> simp [bumpLen]

theorem bumpTldLen_comm (b : TldLenBucket) (r₁ r₂ : Bool) (u₁ u₂ : UsageState) :
    bumpTldLen (bumpTldLen b r₁ u₁) r₂ u₂ = bumpTldLen (bumpTldLen b r₂ u₂) r₁ u₁ := by
  cases r₁ <;> cases r₂ <;> cases u₁ <;> cases u₂ <;> simp [bumpTldLen]

theorem bumpPos_comm (b : PosBucket) (r₁ r₂ : Bool) (u₁ u₂ : UsageState) :
    bumpPos (bumpPos b r₁ u₁) r₂ u₂ = bumpPos (bumpPos b r₂ u₂) r₁ u₁ := by
  cases r₁ <;> cases r₂ <;> cases u₁ <;> cases u₂ <;> simp [bumpPos]

theorem bumpTld_comm (b : TldBucket) (l₁ l₂ : Nat) (r₁ r₂ : Bool)
    (u₁ u₂ : UsageState) :
    bumpTld (bumpTld b l₁ r₁ u₁) l₂ r₂ u₂ =
      bumpTld (bumpTld b l₂ r₂ u₂) l₁ r₁ u₁ := by
  by_cases h₁ : l₁ ≤ MAX_LENGTH <;> by_cases h₂ : l₂ ≤ MAX_LENGTH <;>
    cases r₁ <;> cases r₂ <;> cases u₁ <;> cases u₂ <;> simp [bumpTld, h₁, h₂]

/-- One probed candidate's inputs to the aggregator, as passed by the
block loop in `run` (`collector.py`). -/
structure CandidateResult where
  domain : List Char
  tld : List Char
  length : Nat
  registered : Bool
  usage_state : UsageState
  track_length_stats : Bool
  word_pos_label : List Char
  deriving DecidableEq

/-- `update_aggregates` as a fold step over `CandidateResult`s. -/
def stepAgg (a : Aggregates) (c : CandidateResult) : Aggregates :=
  update_aggregates a c.domain c.tld c.length c.registered c.usage_state
    c.track_length_stats c.word_pos_label

theorem stepAgg_comm (a : Aggregates) (c₁ c₂ : CandidateResult) :
    stepAgg (stepAgg a c₁) c₂ = stepAgg (stepAgg a c₂) c₁ := by
  refine Aggregates.ext ?_ ?_ ?_ ?_ ?_ ?_
  · rfl
  · rfl
  · simp only [stepAgg, update_aggregates]
    by_cases h₁ : c₁.track_length_stats <;> by_cases h₂ : c₂.track_length_stats <;>
      simp [h₁, h₂]
    exact touch_comm a.length_stats c₁.length c₂.length
      (fun L => ⟨L, CHARSET.length ^ L, 0, 0, 0⟩) _ _
      (fun v => bumpLen_comm v c₂.registered c₁.registered c₂.usage_state c₁.usage_state)
  · simp only [stepAgg, update_aggregates]
    by_cases h₁ : c₁.track_length_stats <;> by_cases h₂ : c₂.track_length_stats <;>
      simp [h₁, h₂]
    exact touch_comm a.length_stats_by_tld (c₁.tld, c₁.length) (c₂.tld, c₂.length)
      (fun k => ⟨k.1, k.2, CHARSET.length ^ k.2, 0, 0, 0⟩) _ _
      (fun v => bumpTldLen_comm v c₂.registered c₁.registered c₂.usage_state c₁.usage_state)
  · simp only [stepAgg, update_aggregates]
    exact touch_comm a.tld_stats c₁.tld c₂.tld
      (fun t => ⟨t, 0, 0, 0, 0, 0⟩) _ _
      (fun v => bumpTld_comm v c₂.length c₁.length c₂.registered c₁.registered
        c₂.usage_state c₁.usage_state)
  · simp only [stepAgg, update_aggregates]
    by_cases h₁ : c₁.word_pos_label ≠ [] <;> by_cases h₂ : c₂.word_pos_label ≠ [] <;>
      simp [h₁, h₂]
    exact touch_comm a.word_pos_stats (c₁.word_pos_label, c₁.length)
      (c₂.word_pos_label, c₂.length)
      (fun k => ⟨k.1, k.2, 0, 0, 0⟩) _ _
      (fun v => bumpPos_comm v c₂.registered c₁.registered c₂.usage_state c₁.usage_state)

/-- C8: the aggregator is order-independent — folding `update_aggregates`
over any permutation of a list of per-candidate results, from the same
starting aggregate state, produces identical final values in the global
counters and in every bucket of every map. -/
theorem aggregator_order_independent (l₁ l₂ : List CandidateResult)
    (hperm : l₁.Perm l₂) (a : Aggregates) :
    l₁.foldl stepAgg a = l₂.foldl stepAgg a := by
  haveI : RightCommutative stepAgg := ⟨fun b c₁ c₂ => stepAgg_comm b c₁ c₂⟩
  exact hperm.foldl_eq a

theorem aggregator_order_independent_witness :
    [(⟨"ab".toList, "com".toList, 2, true, .active_site, true, []⟩ : CandidateResult),
     ⟨"cd".toList, "net".toList, 2, false, .no_website, true, []⟩].foldl stepAgg
        init_aggregates =
      [(⟨"cd".toList, "net".toList, 2, false, .no_website, true, []⟩ : CandidateResult),
       ⟨"ab".toList, "com".toList, 2, true, .active_site, true, []⟩].foldl stepAgg
        init_aggregates :=
  aggregator_order_independent _ _ (by decide) init_aggregates

/-- C10: a word-mode aggregator update (`track_length_stats = false`,
empty part-of-speech label) touches only the two global counters and the
`tld_stats` bucket of the candidate's own TLD: `length_stats`,
`length_stats_by_tld` and `word_pos_stats` are left exactly unchanged,
and so is `tld_stats` at every other TLD. -/
theorem word_mode_frame (a : Aggregates) (domain tld : List Char)
    (length : Nat) (registered : Bool) (usage_state : UsageState) :
    (update_aggregates a domain tld length registered usage_state false []).length_stats =
        a.length_stats ∧
    (update_aggregates a domain tld length registered usage_state false []).length_stats_by_tld =
        a.length_stats_by_tld ∧
    (update_aggregates a domain tld length registered usage_state false []).word_pos_stats =
        a.word_pos_stats ∧
    (∀ t, t ≠ tld →
      (update_aggregates a domain tld length registered usage_state false []).tld_stats t =
        a.tld_stats t) ∧
    (update_aggregates a domain tld length registered usage_state false []).domains_tracked_lifetime =
        a.domains_tracked_lifetime + 1 ∧
    (update_aggregates a domain tld length registered usage_state false []).domains_tracked_24h =
        a.domains_tracked_24h + 1 := by
  refine ⟨rfl, rfl, rfl, ?_, rfl, rfl⟩
  intro t ht
  simp [update_aggregates, touch, ht]

theorem word_mode_frame_witness :
    (update_aggregates init_aggregates "ab".toList "com".toList 2 true
        .active_site false []).length_stats = init_aggregates.length_stats ∧
    (update_aggregates init_aggregates "ab".toList "com".toList 2 true
        .active_site false []).tld_stats "net".toList =
      init_aggregates.tld_stats "net".toList :=
  ⟨(word_mode_frame init_aggregates "ab".toList "com".toList 2 true .active_site).1,
   (word_mode_frame init_aggregates "ab".toList "com".toList 2 true .active_site).2.2.2.1
     "net".toList (by decide)⟩

/-- The tuple `(domain, tld, label, length, dns_info, http_info)` returned
by `process_domain` inside `run` (`collector.py`), with the by-then fully
populated DNS dict flattened into its three booleans. -/
structure DomainOutcome where
  domain : List Char
  tld : List Char
  label : List Char
  length : Nat
  registered : Bool
  has_dns : Bool
  resolver_error : Bool
  http : HttpInfo
  deriving DecidableEq

/-- The DNS failover loop in `process_domain` (`collector.py`):
`dns_info` starts as a bare resolver error, each attempt overwrites it
with that attempt's result, the loop continues on resolver errors and
breaks on the first definite answer.  `attempts` holds the responses the
successively selected resolvers would return, one per loop iteration (the
source runs exactly `len(resolvers)` iterations). -/
def dnsLoop : List DohResponse → DnsResult → DnsResult
  | [], acc => acc
  | r :: rest, _ =>
      match check_domain_dns r with
      | .resolver_error => dnsLoop rest .resolver_error
      | res => res

/-- `process_domain(domain, tld)` from `run` (`collector.py`), with the
per-attempt DNS responses and the would-be HTTP fetch passed in: runs the
resolver failover loop, classifies conservatively as
unregistered/no-DNS/resolver-error when every attempt errored, and runs
the HTTP phase only when the domain is registered (otherwise the default
no-website/unknown info stands). -/
def process_domain (domain tld : List Char) (attempts : List DohResponse)
    (fetch : HttpFetch) : DomainOutcome :=
  let label := domain.takeWhile (fun c => c != '.')
  match dnsLoop attempts .resolver_error with
  | .resolver_error =>
      ⟨domain, tld, label, label.length, false, false, true,
       ⟨.no_website, .unknown⟩⟩
  | .classified reg has =>
      ⟨domain, tld, label, label.length, reg, has, false,
       if reg then check_domain_http fetch else ⟨.no_website, .unknown⟩⟩

/-- The sequential (`workers = 0`) per-candidate loop of `run`
(`collector.py`): every candidate of the batch is processed in order,
with its would-be network responses supplied by `oracle`. -/
def processBatch (oracle : List Char × List Char → List DohResponse × HttpFetch) :
    List (List Char × List Char) → List DomainOutcome
  | [] => []
  | (d, t) :: rest =>
      process_domain d t (oracle (d, t)).1 (oracle (d, t)).2 ::
        processBatch oracle rest

theorem dnsLoop_all_error (attempts : List DohResponse)
    (h : ∀ r ∈ attempts, check_domain_dns r = .resolver_error) :
    dnsLoop attempts .resolver_error = .resolver_error := by
  induction attempts with
  | nil => rfl
  | cons r rest ih =>
      have hr : check_domain_dns r = .resolver_error := h r (by simp)
      simp only [dnsLoop, hr]
      exact ih (fun r' hr' => h r' (by simp [hr']))

theorem processBatch_append
    (oracle : List Char × List Char → List DohResponse × HttpFetch)
    (l₁ l₂ : List (List Char × List Char)) :
    processBatch oracle (l₁ ++ l₂) =
      processBatch oracle l₁ ++ processBatch oracle l₂ := by
  induction l₁ with
  | nil => rfl
  | cons p rest ih =>
      cases p with
      | mk d t => simp [processBatch, ih]

/-- C9: resolver failover exhaustion is non-fatal and conservative — when
every one of a candidate's DNS attempts reports a resolver error, that
candidate's final classification is `registered=false, has_dns=false,
resolver_error=true` with the default no-website/unknown HTTP info (the
HTTP phase is skipped), and the batch loop still processes every
candidate before and after it exactly as it would on its own. -/
theorem resolver_exhaustion_nonfatal
    (oracle : List Char × List Char → List DohResponse × HttpFetch)
    (pre post : List (List Char × List Char)) (d t : List Char)
    (herr : ∀ r ∈ (oracle (d, t)).1, check_domain_dns r = .resolver_error) :
    processBatch oracle (pre ++ (d, t) :: post) =
      processBatch oracle pre ++
        ⟨d, t, d.takeWhile (fun c => c != '.'),
          (d.takeWhile (fun c => c != '.')).length, false, false, true,
          ⟨.no_website, .unknown⟩⟩ ::
        processBatch oracle post := by
  rw [processBatch_append]
  congr 1
  simp only [processBatch]
  congr 1
  simp only [process_domain, dnsLoop_all_error _ herr]

theorem resolver_exhaustion_nonfatal_witness :
    processBatch (fun _ => ([.transport_error, .transport_error], .error))
        ([] ++ ("ab.com".toList, "com".toList) :: [("cd.com".toList, "com".toList)]) =
      processBatch (fun _ => ([.transport_error, .transport_error], .error)) [] ++
        ⟨"ab.com".toList, "com".toList,
          "ab.com".toList.takeWhile (fun c => c != '.'),
          ("ab.com".toList.takeWhile (fun c => c != '.')).length, false, false, true,
          ⟨.no_website, .unknown⟩⟩ ::
        processBatch (fun _ => ([.transport_error, .transport_error], .error))
          [("cd.com".toList, "com".toList)] :=
  resolver_exhaustion_nonfatal _ [] [("cd.com".toList, "com".toList)]
    "ab.com".toList "com".toList (by decide)

end Collector
